import Mathlib

/-!
Verification of the core of the `mood-calendar` repository: the versioned
persistent store (`app-core.js`, and the variant in `src/unnamed/part_006`),
the event bus, the color bucketing engine (`scripts/utils.js` global palette
and the ES-module palette in `src/unnamed/part_001`), and the range
aggregation (`aggregateRange` in `app-core.js`).

Modelling conventions:
* JavaScript values that can live in the store's state tree are modelled by
  `JSVal`.  JS objects are string-keyed maps, modelled as association lists
  (first match wins, insertion order preserved).  JS arrays are themselves
  string-keyed objects (`typeof [] === 'object'`); no claim here depends on
  array `length` or element order, so arrays in the initial state (all empty)
  are modelled as empty objects.
* JS numbers relevant to the claims are integers (per-entry scores) or exact
  decimals; they are modelled with `Int`/`Rat`, with `Math.round x = ⌊x + 1/2⌋`
  and `Math.ceil` as the integer ceiling, which agree with the float
  computations on all the values these functions are applied to.
* `structuredClone` deep-copies a tree; on pure values this is the identity,
  modelled by the recursive `clone` below.
-/

/-- A JavaScript value as storable in the state tree. -/
inductive JSVal : Type where
  | null : JSVal
  | bool : Bool → JSVal
  | num : Int → JSVal
  | str : String → JSVal
  | obj : List (String × JSVal) → JSVal

/-- Object fields: the string-keyed own properties of a JS object. -/
abbrev Fields := List (String × JSVal)

/-- Property read `o[k]`: `none` models `undefined`. -/
def getField : Fields → String → Option JSVal
  | [], _ => none
  | (k', v') :: rest, k => if k' = k then some v' else getField rest k

/-- Property write `o[k] = v`: updates an existing key in place (JS keeps its
position) and appends a missing key. -/
def setField : Fields → String → JSVal → Fields
  | [], k, v => [(k, v)]
  | (k', v') :: rest, k, v =>
      if k' = k then (k, v) :: rest else (k', v') :: setField rest k v

/-- Models `structuredClone` on a store tree: a deep copy, which on pure values is
the identity (proved in `clone_eq`). -/
def clone : JSVal → JSVal
  | .null => .null
  | .bool b => .bool b
  | .num n => .num n
  | .str s => .str s
  | .obj fs => .obj (cloneFields fs)
where
  cloneFields : Fields → Fields
    | [] => []
    | (k, v) :: rest => (k, clone v) :: cloneFields rest

mutual
theorem clone_eq : ∀ v : JSVal, clone v = v
  | .null => rfl
  | .bool _ => rfl
  | .num _ => rfl
  | .str _ => rfl
  | .obj fs => congrArg JSVal.obj (cloneFields_eq fs)
theorem cloneFields_eq : ∀ fs : Fields, clone.cloneFields fs = fs
  | [] => rfl
  | (k, v) :: rest => by
      rw [clone.cloneFields, clone_eq v, cloneFields_eq rest]
end

/--
The body of `Store.update` from `app-core.js` lines 84–97 (identical in
`part_006` lines 68–82), acting on the cloned root object's fields:

    const parts = path.split('.');
    const next = structuredClone(state);
    let node = next;
    for (let i = 0; i < parts.length - 1; i++) {
      const key = parts[i];
      if (typeof node[key] !== 'object' || node[key] === null) node[key] = {};
      node = node[key];
    }
    node[parts[parts.length - 1]] = value;

An existing child is kept exactly when `typeof node[key] === 'object'` and it
is not `null`, i.e. when it is an object; anything else (missing key,
primitive, `null`) is replaced by a fresh `{}`.  `childFields` is that
keep-or-reset step.  The in-place mutation of the freshly cloned tree is
rendered functionally: the parent's field is rebound to the recursively
updated child.
-/
def childFields (fields : Fields) (k : String) : Fields :=
  match getField fields k with
  | some (JSVal.obj fs) => fs
  | _ => []

def setPathFields : Fields → List String → JSVal → Fields
  | fields, [], _ => fields
  | fields, [k], v => setField fields k v
  | fields, k :: k2 :: rest, v =>
      setField fields k (JSVal.obj (setPathFields (childFields fields k) (k2 :: rest) v))

/-- Read the subtree at a dot-path (root given by its fields); `none` when the
walk falls off the tree (missing key or a non-object on the way). -/
def getPathFields : Fields → List String → Option JSVal
  | fields, [] => some (JSVal.obj fields)
  | fields, [k] => getField fields k
  | fields, k :: k2 :: rest =>
      match getField fields k with
      | some (JSVal.obj fs) => getPathFields fs (k2 :: rest)
      | _ => none

theorem getField_setField_self (fs : Fields) (k : String) (v : JSVal) :
    getField (setField fs k v) k = some v := by
  induction fs with
  | nil => simp [setField, getField]
  | cons hd tl ih =>
      obtain ⟨k1, v1⟩ := hd
      by_cases h : k1 = k
      · simp [setField, h, getField]
      · simp [setField, h, getField, ih]

theorem getField_setField_ne (fs : Fields) (k k' : String) (v : JSVal)
    (h : k' ≠ k) : getField (setField fs k v) k' = getField fs k' := by
  induction fs with
  | nil => simp [setField, getField, Ne.symm h]
  | cons hd tl ih =>
      obtain ⟨k1, v1⟩ := hd
      by_cases hk : k1 = k
      · subst hk
        simp [setField, getField, Ne.symm h]
      · by_cases hk' : k1 = k'
        · simp [setField, hk, getField, hk', h]
        · simp [setField, hk, getField, hk', ih]

theorem getField_isSome_setField (fs : Fields) (k k' : String) (v : JSVal)
    (h : (getField fs k').isSome) :
    (getField (setField fs k v) k').isSome := by
  by_cases hk : k' = k
  · subst hk; simp [getField_setField_self]
  · rwa [getField_setField_ne fs k k' v hk]

theorem getPathFields_nil (parts : List String) (h : parts ≠ []) :
    getPathFields [] parts = none := by
  cases parts with
  | nil => exact absurd rfl h
  | cons k tail =>
      cases tail with
      | nil => rfl
      | cons k2 r => rfl

theorem getPathFields_cons_obj (fields fs : Fields) (k : String)
    (tail : List String) (h : tail ≠ [])
    (hg : getField fields k = some (JSVal.obj fs)) :
    getPathFields fields (k :: tail) = getPathFields fs tail := by
  cases tail with
  | nil => exact absurd rfl h
  | cons t ts => simp [getPathFields, hg]

theorem getPathFields_cons_notobj (fields : Fields) (k : String)
    (tail : List String) (h : tail ≠ [])
    (hg : ∀ fs, getField fields k ≠ some (JSVal.obj fs)) :
    getPathFields fields (k :: tail) = none := by
  cases tail with
  | nil => exact absurd rfl h
  | cons t ts =>
      cases hgg : getField fields k with
      | none => simp [getPathFields, hgg]
      | some w =>
          cases w with
          | obj fs => exact absurd hgg (hg fs)
          | null => simp [getPathFields, hgg]
          | bool b => simp [getPathFields, hgg]
          | num n => simp [getPathFields, hgg]
          | str s => simp [getPathFields, hgg]

/-- After `update`, reading back the written path returns the written value:
the leaf is set, creating intermediate objects as needed. -/
theorem getPathFields_setPathFields_self :
    ∀ (fs : Fields) (parts : List String) (v : JSVal), parts ≠ [] →
      getPathFields (setPathFields fs parts v) parts = some v
  | _, [], _, h => absurd rfl h
  | fs, [k], v, _ => by
      simp [setPathFields, getPathFields, getField_setField_self]
  | fs, k :: k2 :: rest, v, _ => by
      have ih := getPathFields_setPathFields_self (childFields fs k)
        (k2 :: rest) v (by simp)
      rw [setPathFields,
        getPathFields_cons_obj _ _ k (k2 :: rest) (by simp)
          (getField_setField_self fs k _)]
      exact ih

/-- Frame property of `update`: any path that diverges from the written path
at depth `d` (same first `d` keys, then a different key) reads the same
subtree before and after the update. -/
theorem getPathFields_setPathFields_frame :
    ∀ (fs : Fields) (parts : List String) (v : JSVal) (d : Nat)
      (hd : d < parts.length) (k : String), k ≠ parts.get ⟨d, hd⟩ →
      getPathFields (setPathFields fs parts v) (parts.take d ++ [k]) =
        getPathFields fs (parts.take d ++ [k])
  | fs, [k0], v, 0, _, k, hk => by
      simpa [setPathFields, getPathFields]
        using getField_setField_ne fs k0 k v hk
  | fs, k0 :: k2 :: rest, v, 0, _, k, hk => by
      simpa [setPathFields, getPathFields]
        using getField_setField_ne fs k0 k _ hk
  | fs, k0 :: k2 :: rest, v, d + 1, hd, k, hk => by
      have hd' : d < (k2 :: rest).length := Nat.lt_of_succ_lt_succ hd
      have ih := getPathFields_setPathFields_frame (childFields fs k0)
        (k2 :: rest) v d hd' k hk
      have hne : (k2 :: rest).take d ++ [k] ≠ [] := by simp
      have htail : (k0 :: k2 :: rest).take (d + 1) ++ [k]
          = k0 :: ((k2 :: rest).take d ++ [k]) := by simp
      rw [htail, setPathFields,
        getPathFields_cons_obj _ _ k0 _ hne (getField_setField_self fs k0 _),
        ih]
      cases hg : getField fs k0 with
      | none =>
          rw [getPathFields_cons_notobj fs k0 _ hne (by simp [hg])]
          simp [childFields, hg, getPathFields_nil _ hne]
      | some w =>
          cases w with
          | obj fs' =>
              rw [getPathFields_cons_obj fs fs' k0 _ hne hg]
              simp [childFields, hg]
          | null =>
              rw [getPathFields_cons_notobj fs k0 _ hne (by simp [hg])]
              simp [childFields, hg, getPathFields_nil _ hne]
          | bool b =>
              rw [getPathFields_cons_notobj fs k0 _ hne (by simp [hg])]
              simp [childFields, hg, getPathFields_nil _ hne]
          | num n =>
              rw [getPathFields_cons_notobj fs k0 _ hne (by simp [hg])]
              simp [childFields, hg, getPathFields_nil _ hne]
          | str s =>
              rw [getPathFields_cons_notobj fs k0 _ hne (by simp [hg])]
              simp [childFields, hg, getPathFields_nil _ hne]

/-- Every proper, nonempty prefix of the written path addresses an object
after the update (missing or non-object intermediates were replaced by fresh
empty objects). -/
theorem setPathFields_intermediate :
    ∀ (fs : Fields) (parts : List String) (v : JSVal) (j : Nat),
      0 < j → j < parts.length →
      ∃ fs', getPathFields (setPathFields fs parts v) (parts.take j)
        = some (JSVal.obj fs')
  | _, [], _, _, _, hlen => absurd hlen (by simp)
  | _, [k], _, j, hpos, hlen => by
      simp only [List.length_cons, List.length_nil] at hlen
      exact absurd hpos (by omega)
  | fs, k0 :: k2 :: rest, v, 1, _, _ => by
      refine ⟨setPathFields (childFields fs k0) (k2 :: rest) v, ?_⟩
      simp [setPathFields, getPathFields, getField_setField_self]
  | fs, k0 :: k2 :: rest, v, j + 2, _, hlen => by
      have hlen' : j + 1 < (k2 :: rest).length := Nat.lt_of_succ_lt_succ hlen
      obtain ⟨fs', hfs'⟩ := setPathFields_intermediate (childFields fs k0)
        (k2 :: rest) v (j + 1) (by omega) hlen'
      refine ⟨fs', ?_⟩
      have hne : (k2 :: rest).take (j + 1) ≠ [] := by simp
      have htake : (k0 :: k2 :: rest).take (j + 2)
          = k0 :: (k2 :: rest).take (j + 1) := by simp
      rw [htake, setPathFields,
        getPathFields_cons_obj _ _ k0 _ hne (getField_setField_self fs k0 _)]
      exact hfs'

/-- JS `path.split('.')` with a single-character separator: split at every
`'.'`, keeping empty segments; always returns at least one segment. -/
def splitDotAux : List Char → List Char → List String
  | [], acc => [String.mk acc.reverse]
  | c :: rest, acc =>
      if c = '.' then String.mk acc.reverse :: splitDotAux rest []
      else splitDotAux rest (c :: acc)

def splitDot (s : String) : List String := splitDotAux s.data []

theorem splitDotAux_ne_nil : ∀ (l acc : List Char), splitDotAux l acc ≠ []
  | [], acc => by simp [splitDotAux]
  | c :: rest, acc => by
      by_cases h : c = '.'
      · simp [splitDotAux, h]
      · simpa [splitDotAux, h] using splitDotAux_ne_nil rest (c :: acc)

theorem splitDot_ne_nil (s : String) : splitDot s ≠ [] :=
  splitDotAux_ne_nil s.data []

/-! ## Versioned persistent store (`createStore` in `app-core.js` / `part_006`)

`localStorage` is modelled as the content of the single key
`'appStore_v' + STORE_VERSION`: `Option Fields` (the JSON round trip of a
state tree is the tree itself).  `localStorage.setItem` may throw (quota /
serialization failure); this is modelled by the oracle flag `ok` of
`setItemResult`, whose `Except` result is eliminated inside `persistStep` —
the `try { … } catch (e) { console.warn(…) }` of `persist()`.  Every step of
a mutation is recorded in an event trace:
* `memSet s` — the assignment `state = next`;
* `persisted s` — a successful `localStorage.setItem(STORE_KEY, …)`;
* `persistWarn` — the caught persistence failure and its `console.warn`;
* `notified i s` — subscriber `i` invoked with the state tree `s`.
-/

def STORE_VERSION : Int := 1

def STORE_KEY : String := "appStore_v" ++ toString STORE_VERSION

inductive Ev : Type where
  | memSet (s : Fields)
  | persisted (s : Fields)
  | persistWarn
  | notified (i : Nat) (s : Fields)

structure Store where
  state : Fields
  storage : Option Fields
  subs : List Nat

/-- The raw `localStorage.setItem` call: succeeds or throws, per the oracle. -/
def setItemResult (ok : Bool) (s : Fields) : Except Unit Fields :=
  if ok then Except.ok s else Except.error ()

/-- Models `persist()` — `try { localStorage.setItem(…) } catch (err) { console.warn }`.
The `Except` never escapes: a failure becomes a `persistWarn` log event. -/
def persistStep (ok : Bool) (st : Store) : Store × List Ev :=
  match setItemResult ok st.state with
  | Except.ok s => ({ st with storage := some s }, [Ev.persisted s])
  | Except.error _ => (st, [Ev.persistWarn])

/-- Models `notify()` — invoke every subscriber with the current state. -/
def notifyEvs (st : Store) : List Ev :=
  st.subs.map fun i => Ev.notified i st.state

/-- Models `update(path, value, { silent })` from `app-core.js` lines 84–97 /
`part_006` lines 68–82: split the path, deep-clone + rewrite the tree,
assign `state`, persist, then notify unless silent. -/
def Store.update (ok : Bool) (st : Store) (path : String) (v : JSVal)
    (silent : Bool) : Store × List Ev :=
  let parts := splitDot path
  let next := setPathFields (clone.cloneFields st.state) parts v
  let st1 : Store := { st with state := next }
  let p := persistStep ok st1
  (p.1, Ev.memSet next :: p.2 ++ if silent then [] else notifyEvs p.1)

/-- The spread `{ ...state, ...patch }`: existing keys are overwritten in place, new
patch keys are appended. -/
def spreadMerge (state patch : Fields) : Fields :=
  patch.foldl (fun acc kv => setField acc kv.1 kv.2) state

/-- The argument of `setState` in `part_006`: a partial patch object, or a
function of the current tree. -/
inductive PatchOrFn : Type where
  | patch (p : Fields)
  | fn (f : Fields → Fields)

/-- Models `setState(patchOrFn, { silent })` from `part_006` lines 62–67. -/
def Store.setState (ok : Bool) (st : Store) (pf : PatchOrFn)
    (silent : Bool) : Store × List Ev :=
  let next := match pf with
    | PatchOrFn.patch p => spreadMerge st.state p
    | PatchOrFn.fn f => f st.state
  let st1 : Store := { st with state := next }
  let p := persistStep ok st1
  (p.1, Ev.memSet next :: p.2 ++ if silent then [] else notifyEvs p.1)

def Ev.isNotify : Ev → Bool
  | Ev.notified _ _ => true
  | _ => false

def Ev.isNotifyOf (i : Nat) : Ev → Bool
  | Ev.notified j _ => j == i
  | _ => false

def Ev.isWarn : Ev → Bool
  | Ev.persistWarn => true
  | _ => false

theorem clone_cloneFields_eq (fs : Fields) : clone.cloneFields fs = fs :=
  cloneFields_eq fs

theorem update_result (ok : Bool) (st : Store) (path : String) (v : JSVal)
    (silent : Bool) :
    (Store.update ok st path v silent).1 =
      { state := setPathFields st.state (splitDot path) v,
        storage := if ok then some (setPathFields st.state (splitDot path) v)
          else st.storage,
        subs := st.subs } := by
  cases ok <;>
    simp [Store.update, persistStep, setItemResult, clone_cloneFields_eq]

theorem update_trace (ok : Bool) (st : Store) (path : String) (v : JSVal)
    (silent : Bool) :
    (Store.update ok st path v silent).2 =
      Ev.memSet (setPathFields st.state (splitDot path) v) ::
        (if ok then [Ev.persisted (setPathFields st.state (splitDot path) v)]
          else [Ev.persistWarn]) ++
        (if silent then [] else st.subs.map fun i =>
          Ev.notified i (setPathFields st.state (splitDot path) v)) := by
  cases ok <;> cases silent <;>
    simp [Store.update, persistStep, setItemResult, notifyEvs,
      clone_cloneFields_eq]

theorem setState_result (ok : Bool) (st : Store) (pf : PatchOrFn)
    (silent : Bool) :
    (Store.setState ok st pf silent).1 =
      { state := match pf with
          | PatchOrFn.patch p => spreadMerge st.state p
          | PatchOrFn.fn f => f st.state,
        storage := if ok then some (match pf with
          | PatchOrFn.patch p => spreadMerge st.state p
          | PatchOrFn.fn f => f st.state) else st.storage,
        subs := st.subs } := by
  cases ok <;> cases pf <;>
    simp [Store.setState, persistStep, setItemResult]

theorem setState_trace (ok : Bool) (st : Store) (pf : PatchOrFn)
    (silent : Bool) :
    (Store.setState ok st pf silent).2 =
      Ev.memSet (match pf with
          | PatchOrFn.patch p => spreadMerge st.state p
          | PatchOrFn.fn f => f st.state) ::
        (if ok then [Ev.persisted (match pf with
          | PatchOrFn.patch p => spreadMerge st.state p
          | PatchOrFn.fn f => f st.state)] else [Ev.persistWarn]) ++
        (if silent then [] else st.subs.map fun i =>
          Ev.notified i (match pf with
            | PatchOrFn.patch p => spreadMerge st.state p
            | PatchOrFn.fn f => f st.state)) := by
  cases ok <;> cases silent <;> cases pf <;>
    simp [Store.setState, persistStep, setItemResult, notifyEvs]

/-! ## Event bus (`createEventBus` in `app-core.js` lines 28–47 / `part_006`
lines 15–34)

A handler is identified by `hid`; whether its invocation throws is the
`throws` oracle (`runHandler` is the raw call `cb(payload)`).  `emit`
iterates the handler set in insertion order and wraps each call in
`try { cb(payload) } catch (err) { console.error(err) }`; the trace records
each invocation and each caught-and-logged error.  The `Except` of the raw
call is eliminated inside `emit`, which therefore returns plainly: no
handler error reaches the caller. -/

structure Handler where
  hid : Nat
  throws : Bool
  deriving DecidableEq

inductive BusEv : Type where
  | invoked (hid : Nat)
  | logged (hid : Nat)
  deriving DecidableEq

/-- Models `listeners.get(event)` on the bus's `Map`, `none` for `!listeners.has`. -/
def lookupHandlers : List (String × List Handler) → String → Option (List Handler)
  | [], _ => none
  | (e, hs) :: rest, ev => if e = ev then some hs else lookupHandlers rest ev

/-- The raw handler call `cb(payload)`: returns or throws. -/
def runHandler (h : Handler) : Except Unit Unit :=
  if h.throws then Except.error () else Except.ok ()

/-- One loop iteration of `emit`: `try { cb(payload) } catch (err) { console.error(err) }`. -/
def handlerStep (h : Handler) : List BusEv :=
  BusEv.invoked h.hid ::
    (match runHandler h with
      | Except.ok _ => []
      | Except.error _ => [BusEv.logged h.hid])

def emitList : List Handler → List BusEv
  | [] => []
  | h :: rest => handlerStep h ++ emitList rest

/-- Models `emit(event, payload)`: no-op when no set is registered for the event,
otherwise run every handler in order, isolating each invocation. -/
def emit (bus : List (String × List Handler)) (ev : String) : List BusEv :=
  match lookupHandlers bus ev with
  | none => []
  | some hs => emitList hs

/-! ## Color bucketing engine

Two implementations exist in the repository: the ES module
(`src/unnamed/part_001`, exported constants and functions) and the global
`window.Palette` script inside `scripts/utils.js` (lines 24–59).  Scores are
modelled as exact rationals; `Math.ceil` is the integer ceiling, on which the
float computations of these functions agree.  `moodColor` returns
`Option String` because JS array indexing yields `undefined` out of range
(the index is in fact always in range, see `C3` below). -/

def clamp (v lo hi : ℚ) : ℚ := max lo (min hi v)

namespace PaletteModule

def MAX_ABS : ℚ := 50

def BLUE_STEPS : List String :=
  ["#104fcd", "#1259e7", "#296aee", "#437df0", "#5e8ff2"]

def GREEN_STEPS : List String :=
  ["#1b9744", "#20b351", "#25d05e", "#3adc70", "#56e184"]

def NEUTRAL_YELLOW : String := "#fced9f"

/-- The `bucketIndex` of `part_001`: clamp, special-case zero, then
`5 - Math.ceil(Math.abs(total) / 10)`. -/
def bucketIndex (totalRaw : ℚ) : Option Int :=
  let total := clamp totalRaw (-MAX_ABS) MAX_ABS
  if total = 0 then none
  else some (5 - ⌈|total| / 10⌉)

/-- The `moodColor` of `part_001`: neutral hex at the zero bucket, otherwise
`totalRaw > 0 ? GREEN_STEPS[idx] : BLUE_STEPS[idx]`. -/
def moodColor (totalRaw : ℚ) : Option String :=
  match bucketIndex totalRaw with
  | none => some NEUTRAL_YELLOW
  | some idx =>
      if 0 < totalRaw then GREEN_STEPS.get? idx.toNat
      else BLUE_STEPS.get? idx.toNat

end PaletteModule

namespace PaletteGlobal

def MAX_ABS : ℚ := 50

def BLUE_STEPS : List String :=
  ["#104fcd", "#1259e7", "#296aee", "#437df0", "#5e8ff2"]

def GREEN_STEPS : List String :=
  ["#1b9744", "#20b351", "#25d05e", "#3adc70", "#56e184"]

def NEUTRAL_YELLOW : String := "#CDAA4A"

/-- The `bucketIndex` of the `window.Palette` script in `scripts/utils.js`. -/
def bucketIndex (totalRaw : ℚ) : Option Int :=
  let total := clamp totalRaw (-MAX_ABS) MAX_ABS
  if total = 0 then none
  else some (5 - ⌈|total| / 10⌉)

/-- The `moodColor` of the `window.Palette` script in `scripts/utils.js`. -/
def moodColor (totalRaw : ℚ) : Option String :=
  match bucketIndex totalRaw with
  | none => some NEUTRAL_YELLOW
  | some idx =>
      if 0 < totalRaw then GREEN_STEPS.get? idx.toNat
      else BLUE_STEPS.get? idx.toNat

end PaletteGlobal

/-! ## Initial state (`app-core.js` lines 107–131)

Empty arrays (`journal`, `helps`, `phq2`, `tests`, `practices`, `reminders`)
are modelled as empty objects, per the conventions above. -/

def initialState : Fields :=
  [("version", JSVal.num 1),
   ("ui", JSVal.obj [("page", JSVal.str "calendar"), ("theme", JSVal.str "auto")]),
   ("profile", JSVal.obj
     [("language", JSVal.str "ru"), ("soundOn", JSVal.bool true),
      ("averages", JSVal.obj []), ("triggers", JSVal.obj []),
      ("helps", JSVal.obj [])]),
   ("journal", JSVal.obj []),
   ("testsResults", JSVal.obj [("phq2", JSVal.obj [])]),
   ("catalog", JSVal.obj [("tests", JSVal.obj []), ("practices", JSVal.obj [])]),
   ("settings", JSVal.obj [("reminders", JSVal.obj [])])]

/-- A store mutation, as quantified over by the shape-invariant claim:
a path `update` or a `setState` (patch object or function). -/
inductive Mutation : Type where
  | upd (path : String) (v : JSVal) (silent : Bool)
  | set (pf : PatchOrFn) (silent : Bool)

def Mutation.usesFn : Mutation → Bool
  | Mutation.set (PatchOrFn.fn _) _ => true
  | _ => false

def applyMutation (ok : Bool) (st : Store) : Mutation → Store
  | Mutation.upd path v silent => (Store.update ok st path v silent).1
  | Mutation.set pf silent => (Store.setState ok st pf silent).1

def runMutations (ok : Bool) (st : Store) (ms : List Mutation) : Store :=
  ms.foldl (applyMutation ok) st

def hasKeys (fs : Fields) (ks : List String) : Bool :=
  ks.all fun k => (getField fs k).isSome

/-- The top-level region `k` is present and is an object carrying the keys
the initial state gives it. -/
def regionShapeOk (s : Fields) (k : String) (inner : List String) : Bool :=
  match getField s k with
  | some (JSVal.obj fs) => hasKeys fs inner
  | _ => false

/-- The claim notion of "fully-formed tree matching the initial-state shape": every top-level
region of `initialState` present, each object region still carrying its
initial keys. -/
def matchesInitialShape (s : Fields) : Bool :=
  (getField s "version").isSome &&
  regionShapeOk s "ui" ["page", "theme"] &&
  regionShapeOk s "profile" ["language", "soundOn", "averages", "triggers", "helps"] &&
  (getField s "journal").isSome &&
  regionShapeOk s "testsResults" ["phq2"] &&
  regionShapeOk s "catalog" ["tests", "practices"] &&
  regionShapeOk s "settings" ["reminders"]

theorem getField_isSome_setPathFields (fs : Fields) (parts : List String)
    (v : JSVal) (k : String) (h : (getField fs k).isSome) :
    (getField (setPathFields fs parts v) k).isSome := by
  cases parts with
  | nil => simpa [setPathFields] using h
  | cons k0 rest =>
      cases rest with
      | nil => simpa [setPathFields] using getField_isSome_setField fs k0 k v h
      | cons k2 r2 =>
          simpa [setPathFields] using getField_isSome_setField fs k0 k _ h

theorem getField_isSome_spreadMerge (patch : Fields) (state : Fields)
    (k : String) (h : (getField state k).isSome) :
    (getField (spreadMerge state patch) k).isSome := by
  induction patch generalizing state with
  | nil => simpa [spreadMerge] using h
  | cons kv rest ih =>
      have hstep := getField_isSome_setField state kv.1 k kv.2 h
      simpa [spreadMerge, List.foldl] using ih (setField state kv.1 kv.2) hstep

/-! ## Range aggregation (`aggregateRange`, `app-core.js` lines 281–308)

`window.moodData` maps date keys `'YYYY-MM-DD'` to arrays of entries; only
each entry's coerced score `Number(e.score) || 0` matters here, so the data
is modelled as `List (String × List Int)`.  `Math.round` on the nonnegative
share values is `⌊x + 1/2⌋`; the share arithmetic is modelled over exact
rationals. -/

def jsRound (x : ℚ) : Int := ⌊x + 1 / 2⌋

def lookupScores : List (String × List Int) → String → Option (List Int)
  | [], _ => none
  | (k', vs) :: rest, k => if k' = k then some vs else lookupScores rest k

/-- The mutable locals of `aggregateRange`, in source declaration order. -/
structure AggAcc : Type where
  total : Nat
  zeroCnt : Nat
  activeDays : Nat
  posCnt : Nat
  negCnt : Nat
  posSum : Int
  negSum : Int
  deriving DecidableEq

/-- The inner loop body: classify one entry's coerced score. -/
def entryStep (a : AggAcc) (v : Int) : AggAcc :=
  if 0 < v then { a with posCnt := a.posCnt + 1, posSum := a.posSum + v }
  else if v < 0 then { a with negCnt := a.negCnt + 1, negSum := a.negSum + v }
  else { a with zeroCnt := a.zeroCnt + 1 }

/-- The outer loop body: `arr = moodData?.[k] ?? []`, bump `activeDays` and
`total`, then fold the entries. -/
def keyStep (md : List (String × List Int)) (a : AggAcc) (k : String) : AggAcc :=
  let arr := (lookupScores md k).getD []
  let a1 := { a with
    activeDays := a.activeDays + (if arr.isEmpty then 0 else 1),
    total := a.total + arr.length }
  arr.foldl entryStep a1

/-- The record returned by `aggregateRange`. -/
structure Agg : Type where
  totalEntries : Nat
  zeroEntries : Nat
  activeDays : Nat
  entriesPerDay : ℚ
  positiveShare : Int
  negativeShare : Int
  balanceSum : Int
  deriving DecidableEq

def aggregateRange (md : List (String × List Int)) (dateKeys : List String) :
    Agg :=
  let r := dateKeys.foldl (keyStep md) ⟨0, 0, 0, 0, 0, 0, 0⟩
  let considered := r.posCnt + r.negCnt
  let positiveShare : Int :=
    if considered ≠ 0 then jsRound ((r.posCnt : ℚ) / (considered : ℚ) * 100)
    else 0
  let negativeShare : Int :=
    if considered ≠ 0 then 100 - positiveShare else 0
  { totalEntries := r.total,
    zeroEntries := r.zeroCnt,
    activeDays := r.activeDays,
    entriesPerDay :=
      if r.activeDays ≠ 0 then (r.total : ℚ) / (r.activeDays : ℚ) else 0,
    positiveShare := positiveShare,
    negativeShare := negativeShare,
    balanceSum := r.posSum + r.negSum }

/-- All scores reachable from the given date keys, in scan order. -/
def scoresOf : List (String × List Int) → List String → List Int
  | _, [] => []
  | md, k :: rest => ((lookupScores md k).getD []) ++ scoresOf md rest

def sumPos (l : List Int) : Int := (l.filter fun v => decide (0 < v)).sum

def sumNeg (l : List Int) : Int := (l.filter fun v => decide (v < 0)).sum

def activeDayCount (md : List (String × List Int)) (keys : List String) : Nat :=
  (keys.filter fun k => !((lookupScores md k).getD []).isEmpty).length

theorem foldl_entryStep : ∀ (arr : List Int) (a : AggAcc),
    arr.foldl entryStep a =
      { a with
        zeroCnt := a.zeroCnt + arr.countP fun v => decide (v = 0),
        posCnt := a.posCnt + arr.countP fun v => decide (0 < v),
        negCnt := a.negCnt + arr.countP fun v => decide (v < 0),
        posSum := a.posSum + sumPos arr,
        negSum := a.negSum + sumNeg arr }
  | [], a => by simp [sumPos, sumNeg]
  | v :: rest, a => by
      obtain ⟨t, z, ad, pc, nc, ps, ns⟩ := a
      rw [List.foldl_cons, foldl_entryStep rest]
      rcases lt_trichotomy 0 v with hv | hv | hv
      · simp [entryStep, hv, not_lt_of_gt hv, ne_of_gt hv, sumPos, sumNeg,
          List.countP_cons, List.filter_cons, AggAcc.mk.injEq]
        omega
      · simp [entryStep, hv.symm, sumPos, sumNeg, List.countP_cons,
          List.filter_cons, AggAcc.mk.injEq]
        omega
      · simp [entryStep, hv, not_lt_of_gt hv, ne_of_lt hv, sumPos, sumNeg,
          List.countP_cons, List.filter_cons, AggAcc.mk.injEq]
        omega

theorem foldl_keyStep : ∀ (keys : List String) (md : List (String × List Int))
    (a : AggAcc),
    keys.foldl (keyStep md) a =
      { a with
        total := a.total + (scoresOf md keys).length,
        zeroCnt := a.zeroCnt + (scoresOf md keys).countP fun v => decide (v = 0),
        activeDays := a.activeDays + activeDayCount md keys,
        posCnt := a.posCnt + (scoresOf md keys).countP fun v => decide (0 < v),
        negCnt := a.negCnt + (scoresOf md keys).countP fun v => decide (v < 0),
        posSum := a.posSum + sumPos (scoresOf md keys),
        negSum := a.negSum + sumNeg (scoresOf md keys) }
  | [], md, a => by simp [scoresOf, sumPos, sumNeg, activeDayCount]
  | k :: rest, md, a => by
      obtain ⟨t, z, ad, pc, nc, ps, ns⟩ := a
      rw [List.foldl_cons, keyStep, foldl_entryStep, foldl_keyStep rest]
      simp only [scoresOf, sumPos, sumNeg, activeDayCount, List.filter_cons,
        List.countP_append, List.filter_append, List.length_append,
        List.sum_append, List.filter, AggAcc.mk.injEq]
      cases he : ((lookupScores md k).getD []).isEmpty <;>
        simp [he, AggAcc.mk.injEq] <;> omega

/-! ## Clamp and bucket arithmetic -/

theorem clamp_le_hi (x : ℚ) : clamp x (-50) 50 ≤ 50 :=
  max_le (by norm_num) (min_le_left _ _)

theorem lo_le_clamp (x : ℚ) : -50 ≤ clamp x (-50) 50 := le_max_left _ _

theorem clamp_eq_self (x : ℚ) (h1 : -50 ≤ x) (h2 : x ≤ 50) :
    clamp x (-50) 50 = x := by
  unfold clamp
  rw [min_eq_right h2, max_eq_right h1]

theorem clamp_clamp (x : ℚ) :
    clamp (clamp x (-50) 50) (-50) 50 = clamp x (-50) 50 :=
  clamp_eq_self _ (lo_le_clamp x) (clamp_le_hi x)

theorem clamp_pos_iff (x : ℚ) : 0 < clamp x (-50) 50 ↔ 0 < x := by
  unfold clamp
  rw [lt_max_iff, lt_min_iff]
  constructor
  · rintro (h | ⟨-, h⟩)
    · norm_num at h
    · exact h
  · intro h
    exact Or.inr ⟨by norm_num, h⟩

theorem clamp_neg_iff (x : ℚ) : clamp x (-50) 50 < 0 ↔ x < 0 := by
  unfold clamp
  rw [max_lt_iff, min_lt_iff]
  constructor
  · rintro ⟨-, (h | h)⟩
    · norm_num at h
    · exact h
  · intro h
    exact ⟨by norm_num, Or.inr h⟩

theorem clamp_eq_zero_iff (x : ℚ) : clamp x (-50) 50 = 0 ↔ x = 0 := by
  rcases lt_trichotomy x 0 with hx | hx | hx
  · have := (clamp_neg_iff x).mpr hx
    constructor
    · intro h; rw [h] at this; exact absurd this (lt_irrefl 0)
    · intro h; exact absurd (h ▸ hx) (lt_irrefl 0)
  · subst hx
    simp [clamp_eq_self 0 (by norm_num) (by norm_num)]
  · have := (clamp_pos_iff x).mpr hx
    constructor
    · intro h; rw [h] at this; exact absurd this (lt_irrefl 0)
    · intro h; rw [h] at hx; exact absurd hx (lt_irrefl 0)

theorem bucket_ceil_bounds (t : ℚ) (h0 : t ≠ 0) (hlo : -50 ≤ t)
    (hhi : t ≤ 50) : 1 ≤ ⌈|t| / 10⌉ ∧ ⌈|t| / 10⌉ ≤ 5 := by
  have habs0 : 0 < |t| := abs_pos.mpr h0
  have habs50 : |t| ≤ 50 := abs_le.mpr ⟨by linarith, hhi⟩
  constructor
  · have hpos : (0 : ℚ) < |t| / 10 := by positivity
    have := Int.ceil_pos.mpr hpos
    omega
  · refine Int.ceil_le.mpr ?_
    rw [div_le_iff (by norm_num : (0:ℚ) < 10)]
    push_cast
    linarith

theorem bucket_ceil_eq_five_iff (t : ℚ) (h0 : t ≠ 0) (hlo : -50 ≤ t)
    (hhi : t ≤ 50) : ⌈|t| / 10⌉ = 5 ↔ 40 < |t| := by
  obtain ⟨hb1, hb5⟩ := bucket_ceil_bounds t h0 hlo hhi
  have hlt : (4 : ℤ) < ⌈|t| / 10⌉ ↔ 40 < |t| := by
    rw [Int.lt_ceil, lt_div_iff (by norm_num : (0:ℚ) < 10)]
    push_cast
    constructor <;> intro h <;> linarith
  rw [← hlt]
  omega

theorem bucket_ceil_eq_one_iff (t : ℚ) (h0 : t ≠ 0) (hlo : -50 ≤ t)
    (hhi : t ≤ 50) : ⌈|t| / 10⌉ = 1 ↔ |t| ≤ 10 := by
  obtain ⟨hb1, hb5⟩ := bucket_ceil_bounds t h0 hlo hhi
  have hle : ⌈|t| / 10⌉ ≤ (1 : ℤ) ↔ |t| ≤ 10 := by
    rw [Int.ceil_le, div_le_iff (by norm_num : (0:ℚ) < 10)]
    push_cast
    constructor <;> intro h <;> linarith
  rw [← hle]
  omega

/-- C3: classify is pure and total; a score whose clamped value is 0 yields
the implementation's fixed neutral color regardless of sign; otherwise, with
`t` the value clamped to `[-50, 50]`, the bucket `b = ⌈|t| / 10⌉` is an
integer in `1..5`, `bucketIndex` is the darkness index `5 - b` — `0`
(darkest) exactly for magnitudes in `(40, 50]` and `4` (lightest) exactly
for magnitudes in `(0, 10]` — positive scores select the green palette and
negative scores the blue palette at that index; and an exact multiple of 10
(magnitude `10k`, e.g. exactly 10) takes bucket `k` per the ceiling rule,
i.e. it is grouped with the magnitudes just below it rather than starting
the next-lighter bucket. -/
theorem classify_bucketing (x : ℚ) :
    (clamp x (-50) 50 = 0 →
      PaletteModule.moodColor x = some PaletteModule.NEUTRAL_YELLOW ∧
      PaletteGlobal.moodColor x = some PaletteGlobal.NEUTRAL_YELLOW ∧
      PaletteModule.bucketIndex x = none) ∧
    (clamp x (-50) 50 ≠ 0 →
      ∃ b : Int, b = ⌈|clamp x (-50) 50| / 10⌉ ∧ 1 ≤ b ∧ b ≤ 5 ∧
        PaletteModule.bucketIndex x = some (5 - b) ∧
        ((5 - b = 0) ↔ 40 < |clamp x (-50) 50|) ∧
        ((5 - b = 4) ↔ |clamp x (-50) 50| ≤ 10) ∧
        (0 < x → PaletteModule.moodColor x
          = PaletteModule.GREEN_STEPS.get? (5 - b).toNat) ∧
        (x < 0 → PaletteModule.moodColor x
          = PaletteModule.BLUE_STEPS.get? (5 - b).toNat)) ∧
    (∀ k : Int, 1 ≤ k → k ≤ 5 →
      PaletteModule.bucketIndex ((10 : ℚ) * (k : ℚ)) = some (5 - k)) := by
  refine ⟨?_, ?_, ?_⟩
  · intro h0
    have hb : PaletteModule.bucketIndex x = none := by
      simp [PaletteModule.bucketIndex, PaletteModule.MAX_ABS, h0]
    have hbg : PaletteGlobal.bucketIndex x = none := by
      simp [PaletteGlobal.bucketIndex, PaletteGlobal.MAX_ABS, h0]
    refine ⟨?_, ?_, hb⟩
    · unfold PaletteModule.moodColor
      rw [hb]
    · unfold PaletteGlobal.moodColor
      rw [hbg]
  · intro h0
    have hlo := lo_le_clamp x
    have hhi := clamp_le_hi x
    obtain ⟨hb1, hb5⟩ := bucket_ceil_bounds _ h0 hlo hhi
    have hbx : PaletteModule.bucketIndex x
        = some (5 - ⌈|clamp x (-50) 50| / 10⌉) := by
      simp [PaletteModule.bucketIndex, PaletteModule.MAX_ABS, h0]
    refine ⟨⌈|clamp x (-50) 50| / 10⌉, rfl, hb1, hb5, hbx, ?_, ?_, ?_, ?_⟩
    · have h5 := bucket_ceil_eq_five_iff _ h0 hlo hhi
      constructor
      · intro h
        exact h5.mp (by omega)
      · intro h
        have := h5.mpr h
        omega
    · have h1 := bucket_ceil_eq_one_iff _ h0 hlo hhi
      constructor
      · intro h
        exact h1.mp (by omega)
      · intro h
        have := h1.mpr h
        omega
    · intro hx
      unfold PaletteModule.moodColor
      rw [hbx]
      simp only [if_pos hx]
    · intro hx
      unfold PaletteModule.moodColor
      rw [hbx]
      simp only [if_neg (not_lt_of_gt hx)]
  · intro k hk1 hk5
    have hq1 : (1 : ℚ) ≤ (k : ℚ) := by exact_mod_cast hk1
    have hq5 : (k : ℚ) ≤ 5 := by exact_mod_cast hk5
    have hc : clamp ((10 : ℚ) * (k : ℚ)) (-50) 50 = 10 * (k : ℚ) :=
      clamp_eq_self _ (by linarith) (by linarith)
    have hpos : (0 : ℚ) < 10 * (k : ℚ) := by linarith
    have hceil : ⌈|(10 : ℚ) * (k : ℚ)| / 10⌉ = k := by
      rw [abs_of_pos hpos, mul_comm, mul_div_assoc,
        div_self (by norm_num : (10:ℚ) ≠ 0), mul_one, Int.ceil_intCast]
    simp [PaletteModule.bucketIndex, PaletteModule.MAX_ABS, hc,
      ne_of_gt hpos, hceil]

/-- Witness for `classify_bucketing`: the nonzero branch at the boundary
example score 15, and the multiple-of-10 clause at magnitude 10. -/
theorem classify_bucketing_witness :
    (clamp (15 : ℚ) (-50) 50 ≠ 0 ∧
      (∃ b : Int, b = ⌈|clamp (15 : ℚ) (-50) 50| / 10⌉ ∧ 1 ≤ b ∧ b ≤ 5 ∧
        PaletteModule.bucketIndex 15 = some (5 - b) ∧
        ((5 - b = 0) ↔ 40 < |clamp (15 : ℚ) (-50) 50|) ∧
        ((5 - b = 4) ↔ |clamp (15 : ℚ) (-50) 50| ≤ 10) ∧
        (0 < (15 : ℚ) → PaletteModule.moodColor 15
          = PaletteModule.GREEN_STEPS.get? (5 - b).toNat) ∧
        ((15 : ℚ) < 0 → PaletteModule.moodColor 15
          = PaletteModule.BLUE_STEPS.get? (5 - b).toNat))) ∧
    ((1 : Int) ≤ 1 ∧ (1 : Int) ≤ 5 ∧
      PaletteModule.bucketIndex ((10 : ℚ) * ((1 : Int) : ℚ))
        = some (5 - (1 : Int))) :=
  ⟨⟨by norm_num [clamp], (classify_bucketing 15).2.1 (by norm_num [clamp])⟩,
   ⟨le_refl 1, by norm_num,
    (classify_bucketing 15).2.2 1 (le_refl 1) (by norm_num)⟩⟩

/-- C9: classify is idempotent under re-clamping — for every score `x`,
including out-of-range ones, both `bucketIndex` and `moodColor` (in both
implementations) are unchanged by pre-clamping the input to `[-50, 50]`,
including the neutral result at 0. -/
theorem classify_clamp_idempotent (x : ℚ) :
    PaletteModule.bucketIndex (clamp x (-50) 50) = PaletteModule.bucketIndex x ∧
    PaletteModule.moodColor (clamp x (-50) 50) = PaletteModule.moodColor x ∧
    PaletteGlobal.bucketIndex (clamp x (-50) 50) = PaletteGlobal.bucketIndex x ∧
    PaletteGlobal.moodColor (clamp x (-50) 50) = PaletteGlobal.moodColor x := by
  have hbi : PaletteModule.bucketIndex (clamp x (-50) 50)
      = PaletteModule.bucketIndex x := by
    simp only [PaletteModule.bucketIndex, PaletteModule.MAX_ABS]
    rw [clamp_clamp]
  have hbig : PaletteGlobal.bucketIndex (clamp x (-50) 50)
      = PaletteGlobal.bucketIndex x := by
    simp only [PaletteGlobal.bucketIndex, PaletteGlobal.MAX_ABS]
    rw [clamp_clamp]
  refine ⟨hbi, ?_, hbig, ?_⟩
  · unfold PaletteModule.moodColor
    rw [hbi]
    cases hb : PaletteModule.bucketIndex x with
    | none => rfl
    | some idx =>
        by_cases hp : 0 < x
        · simp only [if_pos hp, if_pos ((clamp_pos_iff x).mpr hp)]
        · have hcp : ¬ 0 < clamp x (-50) 50 :=
            fun hc => hp ((clamp_pos_iff x).mp hc)
          simp only [if_neg hp, if_neg hcp]
  · unfold PaletteGlobal.moodColor
    rw [hbig]
    cases hb : PaletteGlobal.bucketIndex x with
    | none => rfl
    | some idx =>
        by_cases hp : 0 < x
        · simp only [if_pos hp, if_pos ((clamp_pos_iff x).mpr hp)]
        · have hcp : ¬ 0 < clamp x (-50) 50 :=
            fun hc => hp ((clamp_pos_iff x).mp hc)
          simp only [if_neg hp, if_neg hcp]

/-- C10 counterexample: the two palette implementations are *not*
observationally equivalent at score 0 — the module's neutral is `#fced9f`
while the global `window.Palette` neutral is `#CDAA4A`. -/
theorem palette_neutral_counterexample :
    PaletteModule.moodColor 0 = some "#fced9f" ∧
    PaletteGlobal.moodColor 0 = some "#CDAA4A" ∧
    (some "#fced9f" : Option String) ≠ some "#CDAA4A" := by
  have h0 : clamp (0 : ℚ) (-50) 50 = 0 :=
    clamp_eq_self 0 (by norm_num) (by norm_num)
  refine ⟨?_, ?_, by decide⟩
  · have hb : PaletteModule.bucketIndex 0 = none := by
      simp [PaletteModule.bucketIndex, PaletteModule.MAX_ABS, h0]
    unfold PaletteModule.moodColor
    rw [hb]
    rfl
  · have hb : PaletteGlobal.bucketIndex 0 = none := by
      simp [PaletteGlobal.bucketIndex, PaletteGlobal.MAX_ABS, h0]
    unfold PaletteGlobal.moodColor
    rw [hb]
    rfl

/-- C10 amended: the module palette and the global `window.Palette` agree on
`bucketIndex` everywhere and on `moodColor` for every non-neutral score
(`x ≠ 0`); they differ exactly in their fixed neutral constants. -/
theorem palette_equiv_off_neutral :
    (∀ x : ℚ, PaletteGlobal.bucketIndex x = PaletteModule.bucketIndex x) ∧
    (∀ x : ℚ, x ≠ 0 → PaletteGlobal.moodColor x = PaletteModule.moodColor x) ∧
    PaletteGlobal.NEUTRAL_YELLOW ≠ PaletteModule.NEUTRAL_YELLOW := by
  refine ⟨fun x => rfl, ?_, by decide⟩
  intro x hx
  have h0 : clamp x (-50) 50 ≠ 0 := fun h => hx ((clamp_eq_zero_iff x).mp h)
  have hbg : PaletteGlobal.bucketIndex x
      = some (5 - ⌈|clamp x (-50) 50| / 10⌉) := by
    simp [PaletteGlobal.bucketIndex, PaletteGlobal.MAX_ABS, h0]
  have hbm : PaletteModule.bucketIndex x
      = some (5 - ⌈|clamp x (-50) 50| / 10⌉) := by
    simp [PaletteModule.bucketIndex, PaletteModule.MAX_ABS, h0]
  unfold PaletteGlobal.moodColor PaletteModule.moodColor
  rw [hbg, hbm]
  rfl

/-- Witness for `palette_equiv_off_neutral` at the nonzero score 30. -/
theorem palette_equiv_off_neutral_witness :
    (30 : ℚ) ≠ 0 ∧ PaletteGlobal.moodColor 30 = PaletteModule.moodColor 30 :=
  ⟨by norm_num, palette_equiv_off_neutral.2.1 30 (by norm_num)⟩

/-- C1: for every state tree and dot-separated path, `update(p, v)`
deep-clones the tree (the clone step is the identity on values), sets the
leaf addressed by `p` to `v`, turns every missing or non-object (or null)
intermediate along `p` into a fresh object (every proper nonempty prefix of
the path addresses an object afterwards), and leaves every key not on `p` —
in particular each sibling key at every depth along `p`, together with its
whole subtree — equal to its value in the prior state. -/
theorem update_path_semantics (ok : Bool) (st : Store) (p : String)
    (v : JSVal) (silent : Bool) (parts : List String)
    (hp : parts = splitDot p) :
    clone.cloneFields st.state = st.state ∧
    (Store.update ok st p v silent).1.state = setPathFields st.state parts v ∧
    getPathFields (Store.update ok st p v silent).1.state parts = some v ∧
    (∀ j : Nat, 0 < j → j < parts.length →
      ∃ fs', getPathFields (Store.update ok st p v silent).1.state
        (parts.take j) = some (JSVal.obj fs')) ∧
    (∀ (d : Nat) (hd : d < parts.length) (k : String),
      k ≠ parts.get ⟨d, hd⟩ →
      getPathFields (Store.update ok st p v silent).1.state
          (parts.take d ++ [k])
        = getPathFields st.state (parts.take d ++ [k])) := by
  have hne : parts ≠ [] := hp ▸ splitDot_ne_nil p
  have hstate : (Store.update ok st p v silent).1.state
      = setPathFields st.state parts v := by
    rw [update_result, hp]
  refine ⟨clone_cloneFields_eq st.state, hstate, ?_, ?_, ?_⟩
  · rw [hstate]
    exact getPathFields_setPathFields_self st.state parts v hne
  · intro j hj0 hjlen
    rw [hstate]
    exact setPathFields_intermediate st.state parts v j hj0 hjlen
  · intro d hd k hk
    rw [hstate]
    exact getPathFields_setPathFields_frame st.state parts v d hd k hk

/-- Witness for `update_path_semantics`: `update("a.b.c", 9)` on a store
where `a.b` does not exist and `a` holds a sibling key `x`, plus an
untouched top-level sibling `z`. -/
theorem update_path_semantics_witness :
    (["a", "b", "c"] = splitDot "a.b.c") ∧
    ((Store.update true
        ⟨[("a", JSVal.obj [("x", JSVal.num 1)]), ("z", JSVal.num 7)],
          none, []⟩ "a.b.c" (JSVal.num 9) false).1.state
      = setPathFields
          [("a", JSVal.obj [("x", JSVal.num 1)]), ("z", JSVal.num 7)]
          ["a", "b", "c"] (JSVal.num 9)) ∧
    getPathFields (Store.update true
        ⟨[("a", JSVal.obj [("x", JSVal.num 1)]), ("z", JSVal.num 7)],
          none, []⟩ "a.b.c" (JSVal.num 9) false).1.state
        ["a", "b", "c"] = some (JSVal.num 9) := by
  have h := update_path_semantics true
    ⟨[("a", JSVal.obj [("x", JSVal.num 1)]), ("z", JSVal.num 7)], none, []⟩
    "a.b.c" (JSVal.num 9) false ["a", "b", "c"] rfl
  exact ⟨rfl, h.2.1, h.2.2.1⟩

/-- C2: every mutation (`update`, and `setState` where present) performs its
steps in the fixed order: replace the in-memory tree, then attempt
persistence of the full new tree (success or caught failure), and only then
— unless silent — notify the subscribers, each with that same new tree; so
no subscriber ever runs before the persistence attempt of the state it is
handed. -/
theorem mutation_step_order :
    (∀ (ok : Bool) (st : Store) (p : String) (v : JSVal) (silent : Bool),
      (Store.update ok st p v silent).2
        = Ev.memSet (setPathFields st.state (splitDot p) v) ::
          (if ok then [Ev.persisted (setPathFields st.state (splitDot p) v)]
            else [Ev.persistWarn]) ++
          (if silent then []
            else st.subs.map fun i =>
              Ev.notified i (setPathFields st.state (splitDot p) v))) ∧
    (∀ (ok : Bool) (st : Store) (pf : PatchOrFn) (silent : Bool),
      (Store.setState ok st pf silent).2
        = Ev.memSet (match pf with
            | PatchOrFn.patch q => spreadMerge st.state q
            | PatchOrFn.fn f => f st.state) ::
          (if ok then [Ev.persisted (match pf with
            | PatchOrFn.patch q => spreadMerge st.state q
            | PatchOrFn.fn f => f st.state)] else [Ev.persistWarn]) ++
          (if silent then []
            else st.subs.map fun i =>
              Ev.notified i (match pf with
                | PatchOrFn.patch q => spreadMerge st.state q
                | PatchOrFn.fn f => f st.state))) :=
  ⟨update_trace, setState_trace⟩

theorem countP_beq_one_of_nodup (l : List Nat) (i : Nat) (hnd : l.Nodup)
    (hi : i ∈ l) : l.countP (fun j => j == i) = 1 := by
  induction l with
  | nil => cases hi
  | cons a tl ih =>
      rw [List.countP_cons]
      by_cases hai : a = i
      · have hhead := (List.nodup_cons.mp hnd).1
        have hz : tl.countP (fun j => j == i) = 0 := by
          rw [List.countP_eq_zero]
          intro j hj
          simp only [beq_iff_eq]
          intro hji
          rw [hji, ← hai] at hj
          exact hhead hj
        simp [hz, hai]
      · have hmem : i ∈ tl := by
          rcases List.mem_cons.mp hi with h | h
          · exact absurd h.symm hai
          · exact h
        rw [ih (List.nodup_cons.mp hnd).2 hmem]
        simp [hai]

/-- C4: with persistence succeeding, after `update(path, v, {silent:true})`
the new tree is in memory (with `v` readable at the path) and in durable
storage, and no subscriber is invoked; after a non-silent `update(path, v)`
every handler in the subscriber set is invoked exactly once, and every
notification carries the full new state tree. -/
theorem update_silent_vs_notify (st : Store) (p : String) (v : JSVal)
    (hnd : st.subs.Nodup) :
    ((Store.update true st p v true).1.state
        = setPathFields st.state (splitDot p) v ∧
      getPathFields (Store.update true st p v true).1.state (splitDot p)
        = some v ∧
      (Store.update true st p v true).1.storage
        = some (setPathFields st.state (splitDot p) v) ∧
      ∀ e ∈ (Store.update true st p v true).2, e.isNotify = false) ∧
    ((Store.update true st p v false).1.state
        = setPathFields st.state (splitDot p) v ∧
      (Store.update true st p v false).1.storage
        = some (setPathFields st.state (splitDot p) v) ∧
      (∀ i ∈ st.subs,
        (Store.update true st p v false).2.countP (Ev.isNotifyOf i) = 1) ∧
      (∀ (j : Nat) (s : Fields),
        Ev.notified j s ∈ (Store.update true st p v false).2 →
        s = setPathFields st.state (splitDot p) v ∧ j ∈ st.subs)) := by
  have htrT : (Store.update true st p v true).2
      = [Ev.memSet (setPathFields st.state (splitDot p) v),
         Ev.persisted (setPathFields st.state (splitDot p) v)] := by
    rw [update_trace]
    simp
  have htrF : (Store.update true st p v false).2
      = Ev.memSet (setPathFields st.state (splitDot p) v)
        :: Ev.persisted (setPathFields st.state (splitDot p) v)
        :: (st.subs.map fun j =>
            Ev.notified j (setPathFields st.state (splitDot p) v)) := by
    rw [update_trace]
    simp
  refine ⟨⟨?_, ?_, ?_, ?_⟩, ?_, ?_, ?_, ?_⟩
  · simp [update_result]
  · have hst : (Store.update true st p v true).1.state
        = setPathFields st.state (splitDot p) v := by simp [update_result]
    rw [hst]
    exact getPathFields_setPathFields_self st.state (splitDot p) v
      (splitDot_ne_nil p)
  · simp [update_result]
  · intro e he
    rw [htrT] at he
    rcases List.mem_cons.mp he with h | h
    · rw [h]; rfl
    · rcases List.mem_cons.mp h with h2 | h2
      · rw [h2]; rfl
      · cases h2
  · simp [update_result]
  · simp [update_result]
  · intro i hi
    have h3 : st.subs.countP
        ((Ev.isNotifyOf i) ∘ fun j =>
          Ev.notified j (setPathFields st.state (splitDot p) v)) =
        st.subs.countP (fun j => j == i) := by
      apply List.countP_congr
      intro j _
      rfl
    rw [htrF, List.countP_cons, List.countP_cons, List.countP_map, h3,
      countP_beq_one_of_nodup st.subs i hnd hi]
    rfl
  · intro j s hmem
    rw [htrF] at hmem
    simp only [List.mem_cons, List.mem_map] at hmem
    rcases hmem with h | h | ⟨i, hi, heq⟩
    · exact absurd h (by simp)
    · exact absurd h (by simp)
    · injection heq with hij hsn
      exact ⟨hsn.symm, hij ▸ hi⟩

/-- Witness for `update_silent_vs_notify`: a two-subscriber store, updating
`ui.page`. -/
theorem update_silent_vs_notify_witness :
    ([0, 1] : List Nat).Nodup ∧
    (Store.update true
      ⟨[("ui", JSVal.obj [("page", JSVal.str "calendar")])], none, [0, 1]⟩
      "ui.page" (JSVal.str "stats") true).1.state
      = setPathFields [("ui", JSVal.obj [("page", JSVal.str "calendar")])]
          (splitDot "ui.page") (JSVal.str "stats") ∧
    (∀ i ∈ ([0, 1] : List Nat),
      (Store.update true
        ⟨[("ui", JSVal.obj [("page", JSVal.str "calendar")])], none, [0, 1]⟩
        "ui.page" (JSVal.str "stats") false).2.countP
          (Ev.isNotifyOf i) = 1) := by
  have h := update_silent_vs_notify
    ⟨[("ui", JSVal.obj [("page", JSVal.str "calendar")])], none, [0, 1]⟩
    "ui.page" (JSVal.str "stats") (by decide)
  exact ⟨by decide, h.1.1, h.2.2.2.1⟩

/-- C5: when the persistence step fails, the failure is caught and logged
(exactly one warning in the trace), the in-memory mutation is not rolled
back, durable storage is left unchanged, the call returns normally, and a
non-silent mutation still notifies every subscriber with the new tree. -/
theorem persist_failure_nonfatal (st : Store) (p : String) (v : JSVal)
    (silent : Bool) :
    (Store.update false st p v silent).1.state
      = setPathFields st.state (splitDot p) v ∧
    (Store.update false st p v silent).1.storage = st.storage ∧
    (Store.update false st p v silent).2.countP Ev.isWarn = 1 ∧
    (silent = false →
      (Store.update false st p v silent).2
        = Ev.memSet (setPathFields st.state (splitDot p) v)
          :: Ev.persistWarn
          :: st.subs.map fun i =>
              Ev.notified i (setPathFields st.state (splitDot p) v)) := by
  refine ⟨?_, ?_, ?_, ?_⟩
  · simp [update_result]
  · simp [update_result]
  · have hz : st.subs.countP
        (Ev.isWarn ∘ fun i =>
          Ev.notified i (setPathFields st.state (splitDot p) v)) = 0 := by
      rw [List.countP_eq_zero]
      intro j _
      simp [Function.comp, Ev.isWarn]
    cases silent
    · have htr : (Store.update false st p v false).2
          = Ev.memSet (setPathFields st.state (splitDot p) v)
            :: Ev.persistWarn
            :: (st.subs.map fun j =>
                Ev.notified j (setPathFields st.state (splitDot p) v)) := by
        rw [update_trace]
        simp
      rw [htr, List.countP_cons, List.countP_cons, List.countP_map, hz]
      rfl
    · have htr : (Store.update false st p v true).2
          = [Ev.memSet (setPathFields st.state (splitDot p) v),
             Ev.persistWarn] := by
        rw [update_trace]
        simp
      rw [htr]
      rfl
  · intro hs
    subst hs
    rw [update_trace]
    simp

/-- C6 counterexample: as stated the claim is false — from the initial
state, `update("ui", 5)` keeps the `ui` key present but replaces its region
by the bare number 5, so the tree no longer matches the initial-state shape;
and a function-form `setState` can drop required top-level keys entirely
(here `version` disappears). -/
theorem shape_invariant_counterexample :
    matchesInitialShape initialState = true ∧
    matchesInitialShape
      (Store.update true ⟨initialState, none, []⟩ "ui" (JSVal.num 5)
        false).1.state = false ∧
    (getField
      (Store.setState true ⟨initialState, none, []⟩
        (PatchOrFn.fn fun _ => []) false).1.state "version").isSome
      = false := by
  refine ⟨by decide, by decide, by decide⟩

theorem keys_preserved_applyMutation (ok : Bool) (st : Store) (m : Mutation)
    (hm : m.usesFn = false) (k : String)
    (hk : (getField st.state k).isSome) :
    (getField (applyMutation ok st m).state k).isSome := by
  cases m with
  | upd path v silent =>
      have hres := update_result ok st path v silent
      simp only [applyMutation, hres]
      exact getField_isSome_setPathFields st.state (splitDot path) v k hk
  | set pf silent =>
      cases pf with
      | patch q =>
          have hres := setState_result ok st (PatchOrFn.patch q) silent
          simp only [applyMutation, hres]
          exact getField_isSome_spreadMerge q st.state k hk
      | fn f => exact absurd hm (by simp [Mutation.usesFn])

/-- C6 amended: under every sequence of mutations made of `update`s (any
path and value) and object-patch `setState`s, every top-level key of the
initial state remains present — though the claim's stronger statement fails:
the value at such a key can change shape arbitrarily, and a function-form
`setState` (excluded here) can rebuild the tree wholesale and drop keys. -/
theorem toplevel_keys_preserved (ok : Bool) (ms : List Mutation)
    (hfn : ∀ m ∈ ms, m.usesFn = false) (st : Store) (k : String)
    (hk : (getField st.state k).isSome) :
    (getField (runMutations ok st ms).state k).isSome := by
  induction ms generalizing st with
  | nil => exact hk
  | cons m rest ih =>
      have hm : m.usesFn = false := hfn m (List.mem_cons_self m rest)
      have hrest : ∀ m' ∈ rest, m'.usesFn = false := fun m' hm' =>
        hfn m' (List.mem_cons_of_mem m hm')
      simp only [runMutations, List.foldl_cons]
      exact ih hrest (applyMutation ok st m)
        (keys_preserved_applyMutation ok st m hm k hk)

/-- Witness for `toplevel_keys_preserved`: the `journal` key survives an
`update` into `ui.page` followed by a patch `setState` overwriting
`journal`. -/
theorem toplevel_keys_preserved_witness :
    (∀ m ∈ [Mutation.upd "ui.page" (JSVal.str "stats") true,
            Mutation.set (PatchOrFn.patch [("journal", JSVal.num 3)]) false],
      m.usesFn = false) ∧
    (getField initialState "journal").isSome ∧
    (getField (runMutations true ⟨initialState, none, []⟩
      [Mutation.upd "ui.page" (JSVal.str "stats") true,
       Mutation.set (PatchOrFn.patch [("journal", JSVal.num 3)]) false]).state
      "journal").isSome := by
  refine ⟨by decide, by decide, ?_⟩
  exact toplevel_keys_preserved true
    [Mutation.upd "ui.page" (JSVal.str "stats") true,
     Mutation.set (PatchOrFn.patch [("journal", JSVal.num 3)]) false]
    (by decide) ⟨initialState, none, []⟩ "journal" (by decide)

def posCount (l : List Int) : Nat := l.countP fun v => decide (0 < v)

def negCount (l : List Int) : Nat := l.countP fun v => decide (v < 0)

def zeroCount (l : List Int) : Nat := l.countP fun v => decide (v = 0)

theorem aggregateRange_eq (md : List (String × List Int))
    (keys : List String) :
    aggregateRange md keys =
      { totalEntries := (scoresOf md keys).length,
        zeroEntries := zeroCount (scoresOf md keys),
        activeDays := activeDayCount md keys,
        entriesPerDay := if activeDayCount md keys ≠ 0
          then ((scoresOf md keys).length : ℚ) / (activeDayCount md keys : ℚ)
          else 0,
        positiveShare :=
          if posCount (scoresOf md keys) + negCount (scoresOf md keys) ≠ 0
          then jsRound ((posCount (scoresOf md keys) : ℚ)
            / ((posCount (scoresOf md keys)
                + negCount (scoresOf md keys) : Nat) : ℚ) * 100)
          else 0,
        negativeShare :=
          if posCount (scoresOf md keys) + negCount (scoresOf md keys) ≠ 0
          then 100 -
            (if posCount (scoresOf md keys) + negCount (scoresOf md keys) ≠ 0
             then jsRound ((posCount (scoresOf md keys) : ℚ)
               / ((posCount (scoresOf md keys)
                   + negCount (scoresOf md keys) : Nat) : ℚ) * 100)
             else 0)
          else 0,
        balanceSum := sumPos (scoresOf md keys) + sumNeg (scoresOf md keys) } := by
  unfold aggregateRange
  rw [foldl_keyStep]
  simp [posCount, negCount, zeroCount]

theorem sum_filter_eq_zero_of_countP_eq_zero (l : List Int) (p : Int → Bool)
    (h : l.countP p = 0) : (l.filter p).sum = 0 := by
  have hnil : l.filter p = [] := by
    rw [← List.length_eq_zero, ← List.countP_eq_length_filter]
    exact h
  rw [hnil]
  rfl

theorem activeDayCount_eq_zero : ∀ (keys : List String)
    (md : List (String × List Int)), scoresOf md keys = [] →
    activeDayCount md keys = 0
  | [], _, _ => rfl
  | k :: rest, md, h => by
      have happ := List.append_eq_nil.mp (by simpa [scoresOf] using h)
      have hempty : ((lookupScores md k).getD []).isEmpty = true := by
        rw [happ.1]
        rfl
      have hr := activeDayCount_eq_zero rest md happ.2
      simpa [activeDayCount, List.filter_cons, hempty] using hr

/-- C7 counterexample: with 1 positive and 7 negative non-zero entries, the
rounded negative percentage is `round(87.5) = 88`, but `aggregateRange`
returns `negativeShare = 100 - round(12.5) = 87`: the claimed
"rounded percentage of non-zero entries that are negative" does not match
the code at exact-half fractions. -/
theorem negative_share_counterexample :
    negCount (scoresOf [("2024-01-01", [1, -1, -1, -1, -1, -1, -1, -1])]
      ["2024-01-01"]) = 7 ∧
    posCount (scoresOf [("2024-01-01", [1, -1, -1, -1, -1, -1, -1, -1])]
      ["2024-01-01"]) = 1 ∧
    jsRound (((7 : Nat) : ℚ) / ((8 : Nat) : ℚ) * 100) = 88 ∧
    (aggregateRange [("2024-01-01", [1, -1, -1, -1, -1, -1, -1, -1])]
      ["2024-01-01"]).negativeShare = 87 ∧
    (87 : Int) ≠ 88 := by
  have hpos : posCount (scoresOf
      [("2024-01-01", [1, -1, -1, -1, -1, -1, -1, -1])] ["2024-01-01"]) = 1 :=
    by decide
  have hneg : negCount (scoresOf
      [("2024-01-01", [1, -1, -1, -1, -1, -1, -1, -1])] ["2024-01-01"]) = 7 :=
    by decide
  refine ⟨hneg, hpos, by norm_num [jsRound], ?_, by decide⟩
  rw [aggregateRange_eq]
  simp only [hpos, hneg]
  norm_num [jsRound]

/-- C7 amended: `positiveShare` is the rounded percentage of non-zero
entries that are positive, and `negativeShare` is its complement `100 -
positiveShare` (which can differ by one from the independently rounded
negative percentage at exact-half fractions); zero-score entries are
excluded from the share denominator and counted separately in
`zeroEntries`; with no non-zero entries both shares and the balance are 0
(the guarded denominator never divides by zero), and on fully empty data
every aggregate is zero-valued. -/
theorem aggregate_range_shares (md : List (String × List Int))
    (keys : List String) :
    (aggregateRange md keys).totalEntries = (scoresOf md keys).length ∧
    (aggregateRange md keys).zeroEntries = zeroCount (scoresOf md keys) ∧
    (aggregateRange md keys).activeDays = activeDayCount md keys ∧
    (aggregateRange md keys).positiveShare =
      (if posCount (scoresOf md keys) + negCount (scoresOf md keys) ≠ 0
       then jsRound ((posCount (scoresOf md keys) : ℚ)
         / ((posCount (scoresOf md keys)
             + negCount (scoresOf md keys) : Nat) : ℚ) * 100)
       else 0) ∧
    (aggregateRange md keys).negativeShare =
      (if posCount (scoresOf md keys) + negCount (scoresOf md keys) ≠ 0
       then 100 - (aggregateRange md keys).positiveShare
       else 0) ∧
    (aggregateRange md keys).balanceSum
      = sumPos (scoresOf md keys) + sumNeg (scoresOf md keys) ∧
    (posCount (scoresOf md keys) + negCount (scoresOf md keys) = 0 →
      (aggregateRange md keys).positiveShare = 0 ∧
      (aggregateRange md keys).negativeShare = 0 ∧
      (aggregateRange md keys).balanceSum = 0) ∧
    (scoresOf md keys = [] →
      (aggregateRange md keys).totalEntries = 0 ∧
      (aggregateRange md keys).zeroEntries = 0 ∧
      (aggregateRange md keys).activeDays = 0 ∧
      (aggregateRange md keys).entriesPerDay = 0) := by
  rw [aggregateRange_eq]
  refine ⟨rfl, rfl, rfl, rfl, by simp, rfl, ?_, ?_⟩
  · intro h0
    have hpos : posCount (scoresOf md keys) = 0 := by omega
    have hneg : negCount (scoresOf md keys) = 0 := by omega
    refine ⟨by simp [h0], by simp [h0], ?_⟩
    have h1 := sum_filter_eq_zero_of_countP_eq_zero (scoresOf md keys) _ hpos
    have h2 := sum_filter_eq_zero_of_countP_eq_zero (scoresOf md keys) _ hneg
    simp only [sumPos, sumNeg, h1, h2]
    rfl
  · intro hnil
    have had := activeDayCount_eq_zero keys md hnil
    refine ⟨by simp [hnil], by simp [hnil, zeroCount], by simp [had],
      by simp [had]⟩

/-- Witness for `aggregate_range_shares`: the no-non-zero-entries and
empty-data clauses at the empty journal. -/
theorem aggregate_range_shares_witness :
    (posCount (scoresOf [] []) + negCount (scoresOf [] []) = 0 ∧
      (aggregateRange [] []).positiveShare = 0 ∧
      (aggregateRange [] []).negativeShare = 0 ∧
      (aggregateRange [] []).balanceSum = 0) ∧
    (scoresOf ([] : List (String × List Int)) ([] : List String) = [] ∧
      (aggregateRange [] []).totalEntries = 0 ∧
      (aggregateRange [] []).zeroEntries = 0 ∧
      (aggregateRange [] []).activeDays = 0 ∧
      (aggregateRange [] []).entriesPerDay = 0) :=
  ⟨⟨by decide, (aggregate_range_shares [] []).2.2.2.2.2.2.1 (by decide)⟩,
   ⟨rfl, (aggregate_range_shares [] []).2.2.2.2.2.2.2 rfl⟩⟩

theorem invoked_mem_emitList : ∀ (hs : List Handler) (h : Handler),
    h ∈ hs → BusEv.invoked h.hid ∈ emitList hs
  | h0 :: rest, h, hmem => by
      rcases List.mem_cons.mp hmem with heq | hmem'
      · subst heq
        simp [emitList, handlerStep]
      · simp only [emitList, List.mem_append]
        exact Or.inr (invoked_mem_emitList rest h hmem')

theorem logged_mem_emitList : ∀ (hs : List Handler) (h : Handler),
    h ∈ hs → h.throws = true → BusEv.logged h.hid ∈ emitList hs
  | h0 :: rest, h, hmem, hth => by
      rcases List.mem_cons.mp hmem with heq | hmem'
      · subst heq
        simp [emitList, handlerStep, runHandler, hth]
      · simp only [emitList, List.mem_append]
        exact Or.inr (logged_mem_emitList rest h hmem' hth)

theorem countP_invoked_emitList_zero : ∀ (hs : List Handler) (i : Nat),
    i ∉ hs.map Handler.hid →
    (emitList hs).countP (fun e => e == BusEv.invoked i) = 0
  | [], i, _ => rfl
  | h0 :: rest, i, hnot => by
      have hne : h0.hid ≠ i := fun h =>
        hnot (h ▸ List.mem_map_of_mem _ (List.mem_cons_self h0 rest))
      have hnot' : i ∉ rest.map Handler.hid := fun hh =>
        hnot (List.mem_cons_of_mem _ hh)
      simp only [emitList, List.countP_append]
      rw [countP_invoked_emitList_zero rest i hnot']
      cases hth : h0.throws <;>
        simp [handlerStep, runHandler, hth, hne]

theorem countP_invoked_emitList_one : ∀ (hs : List Handler) (h : Handler),
    (hs.map Handler.hid).Nodup → h ∈ hs →
    (emitList hs).countP (fun e => e == BusEv.invoked h.hid) = 1
  | h0 :: rest, h, hnd, hmem => by
      have hndcons :
          (∀ x ∈ rest, ¬x.hid = h0.hid) ∧ (rest.map Handler.hid).Nodup := by
        simpa [List.map_cons, List.nodup_cons] using hnd
      simp only [emitList, List.countP_append]
      rcases List.mem_cons.mp hmem with heq | hmem'
      · subst heq
        have hnotin : h.hid ∉ rest.map Handler.hid := by
          intro hmm
          obtain ⟨x, hx, hxe⟩ := List.mem_map.mp hmm
          exact hndcons.1 x hx hxe
        rw [countP_invoked_emitList_zero rest h.hid hnotin]
        cases hth : h.throws <;> simp [handlerStep, runHandler, hth]
      · have hne : h0.hid ≠ h.hid := fun hh =>
          hndcons.1 h hmem' hh.symm
        rw [countP_invoked_emitList_one rest h hndcons.2 hmem']
        cases hth : h0.throws <;>
          simp [handlerStep, runHandler, hth, hne]

/-- C8: `emit` on an unregistered event name is a no-op; on a registered
set, every handler is invoked (exactly once, given distinct handler ids)
even when other handlers throw, every thrown error is caught and logged,
and — since `emit` returns a plain trace with the raw calls' exceptions
eliminated inside — no exception propagates to the caller of `emit`. -/
theorem emit_isolation (bus : List (String × List Handler)) (ev : String) :
    (lookupHandlers bus ev = none → emit bus ev = []) ∧
    (∀ hs, lookupHandlers bus ev = some hs →
      emit bus ev = emitList hs ∧
      (∀ h ∈ hs, BusEv.invoked h.hid ∈ emitList hs) ∧
      (∀ h ∈ hs, h.throws = true → BusEv.logged h.hid ∈ emitList hs) ∧
      ((hs.map Handler.hid).Nodup → ∀ h ∈ hs,
        (emitList hs).countP (fun e => e == BusEv.invoked h.hid) = 1)) := by
  refine ⟨?_, ?_⟩
  · intro h
    simp [emit, h]
  · intro hs h
    refine ⟨by simp [emit, h], ?_, ?_, ?_⟩
    · intro h' hm
      exact invoked_mem_emitList hs h' hm
    · intro h' hm ht
      exact logged_mem_emitList hs h' hm ht
    · intro hnd h' hm
      exact countP_invoked_emitList_one hs h' hnd hm

/-- Witness for `emit_isolation`: a bus with one throwing and one normal
handler on the same event — the second is still invoked and the first's
error is logged. -/
theorem emit_isolation_witness :
    lookupHandlers [("evt", [Handler.mk 0 true, Handler.mk 1 false])] "evt"
      = some [Handler.mk 0 true, Handler.mk 1 false] ∧
    BusEv.invoked 1 ∈ emitList [Handler.mk 0 true, Handler.mk 1 false] ∧
    BusEv.logged 0 ∈ emitList [Handler.mk 0 true, Handler.mk 1 false] := by
  have h := (emit_isolation
    [("evt", [Handler.mk 0 true, Handler.mk 1 false])] "evt").2
    [Handler.mk 0 true, Handler.mk 1 false] (by decide)
  exact ⟨by decide, h.2.1 (Handler.mk 1 false) (by decide),
    h.2.2.1 (Handler.mk 0 true) (by decide) rfl⟩

/-- Witness for `persist_failure_nonfatal`: a one-subscriber store whose
persistence layer fails during a non-silent single-key update. -/
theorem persist_failure_nonfatal_witness :
    ((Store.update false
        ⟨[("a", JSVal.num 1)], some [("a", JSVal.num 1)], [5]⟩
        "a" (JSVal.num 2) false).1.state
      = setPathFields [("a", JSVal.num 1)] (splitDot "a") (JSVal.num 2)) ∧
    ((Store.update false
        ⟨[("a", JSVal.num 1)], some [("a", JSVal.num 1)], [5]⟩
        "a" (JSVal.num 2) false).1.storage = some [("a", JSVal.num 1)]) ∧
    ((Store.update false
        ⟨[("a", JSVal.num 1)], some [("a", JSVal.num 1)], [5]⟩
        "a" (JSVal.num 2) false).2.countP Ev.isWarn = 1) ∧
    ((Store.update false
        ⟨[("a", JSVal.num 1)], some [("a", JSVal.num 1)], [5]⟩
        "a" (JSVal.num 2) false).2
      = Ev.memSet
          (setPathFields [("a", JSVal.num 1)] (splitDot "a") (JSVal.num 2))
        :: Ev.persistWarn
        :: ([5] : List Nat).map fun i => Ev.notified i
            (setPathFields [("a", JSVal.num 1)] (splitDot "a") (JSVal.num 2))) := by
  have h := persist_failure_nonfatal
    ⟨[("a", JSVal.num 1)], some [("a", JSVal.num 1)], [5]⟩
    "a" (JSVal.num 2) false
  exact ⟨h.1, h.2.1, h.2.2.1, h.2.2.2 rfl⟩
